import Mathlib

/-!
Shallow embedding of `ollama-updater-go` (src/main.go and the variant in
src/unnamed/part_000) and verification of the frozen claims about it.

The program checks locally cached ollama models against the remote registry:
it fetches the local inventory, resolves each model name `repo:tag` to a
remote URL, fetches the remote manifest (a JSON object), hashes its
canonical serialization with SHA-256, base64-encodes the digest, and
compares it with the locally stored digest.  A tview checkbox UI lets the
user select stale models and trigger updates via a streaming POST.

Machine integers are modelled as `Nat` with explicit `% 2^32` where the Go
code uses 32-bit arithmetic (SHA-256 internals).  Byte strings are
`List Nat` with each element `< 256`.  Network effects are modelled as
explicit oracle inputs (each fetch outcome is passed in as data).
-/

set_option maxRecDepth 10000

namespace OllamaUpdater

/-- JSON values as produced by Go's `json.Unmarshal` into
`map[string]interface{}` (the `RemoteModelInfo` type in src/main.go).
Numbers are modelled as integers; for integral values Go's `json.Marshal`
of the decoded `float64` prints the same decimal form. -/
inductive Jval where
  | null : Jval
  | bool : Bool → Jval
  | num : Int → Jval
  | str : String → Jval
  | arr : List Jval → Jval
  | obj : List (String × Jval) → Jval

/-- One lowercase hex digit, as used by Go's JSON `\u00xx` escapes. -/
def hexDigit (n : Nat) : Char :=
  "0123456789abcdef".data.getD n '0'

/-- Go `encoding/json` escaping of a single character inside a string
literal: `"`, `\`, newline, carriage return and tab get two-character
escapes, other control characters get `\u00xx`, and by default Go also
escapes `<`, `>`, `&`, U+2028 and U+2029. -/
def escapeChar (c : Char) : String :=
  if c = '"' then "\\\""
  else if c = '\\' then "\\\\"
  else if c = '\n' then "\\n"
  else if c = '\r' then "\\r"
  else if c = '\t' then "\\t"
  else if c = '<' then "\\u003c"
  else if c = '>' then "\\u003e"
  else if c = '&' then "\\u0026"
  else if c.toNat < 32 then
    "\\u00" ++ String.mk [hexDigit (c.toNat / 16), hexDigit (c.toNat % 16)]
  else if c.toNat = 0x2028 then "\\u2028"
  else if c.toNat = 0x2029 then "\\u2029"
  else String.mk [c]

/-- Go's JSON rendering of a string: double quotes around the escaped body. -/
def quoteJson (s : String) : String :=
  "\"" ++ String.join (s.data.map escapeChar) ++ "\""

/-- Comma-separated concatenation, as between JSON array/object members. -/
def commaJoin : List String → String
  | [] => ""
  | [s] => s
  | s :: t :: r => s ++ "," ++ commaJoin (t :: r)

/-- Lexicographic comparison of character lists.  Go's `json.Marshal`
sorts map keys in increasing byte order; on valid UTF-8 that equals
code-point lexicographic order. -/
def lexLe : List Char → List Char → Bool
  | [], _ => true
  | _ :: _, [] => false
  | a :: as, b :: bs => if a < b then true else if b < a then false else lexLe as bs

/-- Key order used on rendered object fields: compare the keys
lexicographically.  The keys of a Go map are distinct, so any sort by
this order produces the same list; we use insertion sort. -/
def fieldLe (a b : String × String) : Prop :=
  lexLe a.1.data b.1.data = true

instance : DecidableRel fieldLe :=
  fun a b => inferInstanceAs (Decidable (lexLe a.1.data b.1.data = true))

mutual

/-- Canonical JSON serialization of a value, following Go's `json.Marshal`:
object keys are sorted, no whitespace is inserted. -/
def Jval.render : Jval → String
  | .null => "null"
  | .bool true => "true"
  | .bool false => "false"
  | .num n => toString n
  | .str s => quoteJson s
  | .arr xs => "[" ++ Jval.renderArr xs ++ "]"
  | .obj fs =>
      "\x7b" ++ commaJoin ((List.insertionSort fieldLe (Jval.renderFields fs)).map Prod.snd) ++ "\x7d"
termination_by structural v => v

/-- Renders the members of a JSON array in order. -/
def Jval.renderArr : List Jval → String
  | [] => ""
  | [x] => x.render
  | x :: y :: xs => x.render ++ "," ++ Jval.renderArr (y :: xs)
termination_by structural l => l

/-- Renders each object field to the pair (key, `"key":value` text); the
caller sorts these pairs by key before joining them. -/
def Jval.renderFields : List (String × Jval) → List (String × String)
  | [] => []
  | (k, v) :: fs => (k, quoteJson k ++ ":" ++ v.render) :: Jval.renderFields fs
termination_by structural l => l

end

/-- UTF-8 encoding of one character (code point), as Go strings are stored. -/
def utf8EncodeChar (c : Char) : List Nat :=
  let n := c.toNat
  if n < 0x80 then [n]
  else if n < 0x800 then
    [0xC0 ||| (n >>> 6), 0x80 ||| (n &&& 0x3F)]
  else if n < 0x10000 then
    [0xE0 ||| (n >>> 12), 0x80 ||| ((n >>> 6) &&& 0x3F), 0x80 ||| (n &&& 0x3F)]
  else
    [0xF0 ||| (n >>> 18), 0x80 ||| ((n >>> 12) &&& 0x3F),
     0x80 ||| ((n >>> 6) &&& 0x3F), 0x80 ||| (n &&& 0x3F)]

/-- The UTF-8 bytes of a string. -/
def utf8Bytes (s : String) : List Nat :=
  (s.data.map utf8EncodeChar).flatten

/-! ### SHA-256 (crypto/sha256), FIPS 180-4, on byte lists -/

/-- Truncation to a 32-bit word. -/
def w32 (n : Nat) : Nat := n % 4294967296

/-- Right rotation of a 32-bit word. -/
def rotr (x n : Nat) : Nat := w32 ((x >>> n) ||| (x <<< (32 - n)))

/-- The 64 SHA-256 round constants (FIPS 180-4 section 4.2.2, here in
decimal). -/
def shaK : List Nat :=
  [1116352408, 1899447441, 3049323471, 3921009573, 961987163, 1508970993,
   2453635748, 2870763221, 3624381080, 310598401, 607225278, 1426881987,
   1925078388, 2162078206, 2614888103, 3248222580, 3835390401, 4022224774,
   264347078, 604807628, 770255983, 1249150122, 1555081692, 1996064986,
   2554220882, 2821834349, 2952996808, 3210313671, 3336571891, 3584528711,
   113926993, 338241895, 666307205, 773529912, 1294757372, 1396182291,
   1695183700, 1986661051, 2177026350, 2456956037, 2730485921, 2820302411,
   3259730800, 3345764771, 3516065817, 3600352804, 4094571909, 275423344,
   430227734, 506948616, 659060556, 883997877, 958139571, 1322822218,
   1537002063, 1747873779, 1955562222, 2024104815, 2227730452, 2361852424,
   2428436474, 2756734187, 3204031479, 3329325298]

/-- The eight 32-bit working variables of SHA-256 (`a` through `h` in
crypto/sha256). -/
structure Sha8 where
  a : Nat
  b : Nat
  c : Nat
  d : Nat
  e : Nat
  f : Nat
  g : Nat
  h : Nat

/-- The SHA-256 initial hash state (FIPS 180-4 section 5.3.3, in
decimal). -/
def shaInit : Sha8 :=
  ⟨1779033703, 3144134277, 1013904242, 2773480762,
   1359893119, 2600822924, 528734635, 1541459225⟩

/-- SHA-256 padding for a message of `len` bytes: a 0x80 byte, zeros to 56
mod 64, then the bit length as 8 big-endian bytes. -/
def shaPadding (len : Nat) : List Nat :=
  let zeros := (64 + 56 - ((len + 1) % 64)) % 64
  0x80 :: List.replicate zeros 0 ++
    ([56, 48, 40, 32, 24, 16, 8, 0].map fun k => ((8 * len) >>> k) % 256)

/-- Splits a byte list into 64-byte blocks; the fuel argument (any bound
on the list length) only makes the recursion structural. -/
def toBlocksGo : Nat → List Nat → List (List Nat)
  | _, [] => []
  | 0, _ :: _ => []
  | fuel + 1, x :: l => (x :: l).take 64 :: toBlocksGo fuel ((x :: l).drop 64)

/-- Splits a byte list into 64-byte blocks. -/
def toBlocks (l : List Nat) : List (List Nat) :=
  toBlocksGo l.length l

/-- Big-endian 32-bit words from bytes. -/
def bytesToWords : List Nat → List Nat
  | b0 :: b1 :: b2 :: b3 :: rest =>
      ((b0 <<< 24) ||| (b1 <<< 16) ||| (b2 <<< 8) ||| b3) :: bytesToWords rest
  | _ => []

/-- The small sigma-0 function of the message schedule. -/
def sig0 (x : Nat) : Nat := (rotr x 7) ^^^ (rotr x 18) ^^^ (x >>> 3)

/-- The small sigma-1 function of the message schedule. -/
def sig1 (x : Nat) : Nat := (rotr x 17) ^^^ (rotr x 19) ^^^ (x >>> 10)

/-- Extends the 16-word message schedule by `n` further words. -/
def extendSchedule : Nat → List Nat → List Nat
  | 0, ws => ws
  | n + 1, ws =>
      let t := ws.length
      let nw := w32 (ws.getD (t - 16) 0 + sig0 (ws.getD (t - 15) 0) +
                     ws.getD (t - 7) 0 + sig1 (ws.getD (t - 2) 0))
      extendSchedule n (ws ++ [nw])

/-- One SHA-256 compression round per (constant, schedule word) pair. -/
def shaRounds : List (Nat × Nat) → Sha8 → Sha8
  | [], s => s
  | (k, w) :: rest, ⟨a, b, c, d, e, f, g, h⟩ =>
      let s1 := (rotr e 6) ^^^ (rotr e 11) ^^^ (rotr e 25)
      let ch := (e &&& f) ^^^ ((e ^^^ 0xffffffff) &&& g)
      let t1 := w32 (h + s1 + ch + k + w)
      let s0 := (rotr a 2) ^^^ (rotr a 13) ^^^ (rotr a 22)
      let mj := (a &&& b) ^^^ (a &&& c) ^^^ (b &&& c)
      let t2 := w32 (s0 + mj)
      shaRounds rest ⟨w32 (t1 + t2), a, b, c, w32 (d + t1), e, f, g⟩

/-- Compression of one 64-byte block into the running state. -/
def compressBlock (st : Sha8) (block : List Nat) : Sha8 :=
  let ws := extendSchedule 48 (bytesToWords block)
  let s := shaRounds (shaK.zip ws) st
  ⟨w32 (st.a + s.a), w32 (st.b + s.b), w32 (st.c + s.c), w32 (st.d + s.d),
   w32 (st.e + s.e), w32 (st.f + s.f), w32 (st.g + s.g), w32 (st.h + s.h)⟩

/-- Big-endian bytes of a 32-bit word. -/
def wordBytes (w : Nat) : List Nat :=
  [(w >>> 24) % 256, (w >>> 16) % 256, (w >>> 8) % 256, w % 256]

/-- SHA-256 of a byte list, as a 32-byte digest. -/
def sha256 (msg : List Nat) : List Nat :=
  let padded := msg ++ shaPadding msg.length
  let final := (toBlocks padded).foldl compressBlock shaInit
  wordBytes final.a ++ wordBytes final.b ++ wordBytes final.c ++ wordBytes final.d ++
    wordBytes final.e ++ wordBytes final.f ++ wordBytes final.g ++ wordBytes final.h

/-! ### Standard base64 (encoding/base64 StdEncoding) -/

/-- The standard base64 alphabet character for a 6-bit value. -/
def b64Char (n : Nat) : Char :=
  "ABCDEFGHIJKLMNOPQRSTUVWXYZabcdefghijklmnopqrstuvwxyz0123456789+/".data.getD n 'A'

/-- Standard base64 encoding with `=` padding. -/
def base64Encode : List Nat → String
  | [] => ""
  | [b0] =>
      String.mk [b64Char (b0 >>> 2), b64Char ((b0 &&& 3) <<< 4)] ++ "=="
  | [b0, b1] =>
      String.mk [b64Char (b0 >>> 2), b64Char (((b0 &&& 3) <<< 4) ||| (b1 >>> 4)),
                 b64Char ((b1 &&& 15) <<< 2)] ++ "="
  | b0 :: b1 :: b2 :: rest =>
      String.mk [b64Char (b0 >>> 2), b64Char (((b0 &&& 3) <<< 4) ||| (b1 >>> 4)),
                 b64Char (((b1 &&& 15) <<< 2) ||| (b2 >>> 6)), b64Char (b2 &&& 63)] ++
      base64Encode rest

/-- `calculateHash` from src/main.go: `json.Marshal` the object, SHA-256
the bytes, and base64-encode the digest with the standard encoding. -/
def calculateHash (jsonObj : Jval) : String :=
  base64Encode (sha256 (utf8Bytes jsonObj.render))

/-- The staleness comparison in the main loop of src/main.go:
`remoteHash != localDigest`, where the remote descriptor is the decoded
JSON object (`RemoteModelInfo`, i.e. a string-keyed map). -/
def isStale (info : List (String × Jval)) (localDigest : String) : Bool :=
  calculateHash (.obj info) != localDigest

/-! ### Remote identity resolution (the `strings.Split` line in main) -/

/-- Go's `strings.Split` for a one-character separator: every occurrence
of the separator splits, empty segments are kept, and the empty input
yields one empty segment. -/
def splitSeg (sep : Char) : List Char → List (List Char)
  | [] => [[]]
  | c :: rest =>
      if c = sep then [] :: splitSeg sep rest
      else
        match splitSeg sep rest with
        | [] => [[c]]
        | s :: ss => (c :: s) :: ss

/-- The `library/` qualification: if the repo segment contains no `/`,
prepend `library/` (the `strings.Contains` branch in main). -/
def qualifyRepo (repo : List Char) : List Char :=
  if '/' ∈ repo then repo else "library/".data ++ repo

/-- The resolution step of the main loop on the character list of a name:
`repo := Split(name, ":")[0]`, `tag := Split(name, ":")[1]`, then the
`library/` qualification.  `none` models the index-out-of-range panic when
the second segment does not exist. -/
def resolveParts (name : List Char) : Option (List Char × List Char) :=
  match splitSeg ':' name with
  | p0 :: p1 :: _ => some (qualifyRepo p0, p1)
  | _ => none

/-- String-level resolver: maps a local model name to the remote
(repository, tag) identity, `none` on a malformed (colon-free) name. -/
def resolve (name : String) : Option (String × String) :=
  (resolveParts name.data).map fun p => (String.mk p.1, String.mk p.2)

/-! ### The reconciliation driver (the main loop) -/

/-- A local model as decoded from the inventory endpoint. -/
structure LocalModel where
  name : String
  digest : String

/-- One item of a reconciliation run: the local model together with its
remote fetch outcome (`none` models any of the per-item failures —
transport error, non-200 status, unreadable body, or unparseable JSON —
all of which `continue` to the next model). -/
abbrev RunItem := LocalModel × Option (List (String × Jval))

/-- The main loop of src/main.go over the local models: resolve the name
(panicking on a malformed name, modelled as `Except.error`), skip items
whose fetch failed, and append the name to `nonUpToDateModels` when the
computed remote hash differs from the local digest. -/
def driver : List RunItem → Except String (List String)
  | [] => .ok []
  | (m, fetched) :: rest =>
      match resolve m.name with
      | none => .error "index out of range"
      | some _ =>
          match fetched with
          | none => driver rest
          | some info =>
              match driver rest with
              | .error e => .error e
              | .ok names =>
                  .ok ((if isStale info m.digest then [m.name] else []) ++ names)

/-! ### The update trigger (`updateModel`) -/

/-- The outcome of one `Read` call on the response body: the bytes read
plus the error value (`none` = nil, `eof` = io.EOF, `other` = any other
read error). -/
inductive ReadErr where
  | none : ReadErr
  | eof : ReadErr
  | other : ReadErr
deriving DecidableEq

/-- The streaming read loop at the end of `updateModel`: read into a
1024-byte buffer; a non-EOF error is fatal (`log.Fatalf`, modelled as
`Except.error`); a zero-byte read breaks; otherwise the chunk is printed
and the loop continues.  An exhausted result list models the reader
returning `(0, io.EOF)` forever. -/
def readLoop : List (List Nat × ReadErr) → Except String (List Nat)
  | [] => .ok []
  | (chunk, e) :: rest =>
      if e = .other then .error "Error reading response body"
      else if chunk.length = 0 then .ok []
      else
        match readLoop rest with
        | .error msg => .error msg
        | .ok out => .ok (chunk ++ out)

/-- The environment of one `updateModel` call: the outcomes of
`json.Marshal`, `http.NewRequest`, `client.Do`, and the successive `Read`
calls on the response body. -/
structure UpdateWorld where
  marshalResult : Except String (List Nat)
  newRequestResult : Except String Unit
  doResult : Except String Unit
  reads : List (List Nat × ReadErr)

/-- `updateModel` from src/main.go: any failure of marshal, request
creation or request execution is `log.Fatalf` (process termination,
modelled as `Except.error`); on success the response body is streamed by
`readLoop` and the forwarded bytes are returned. -/
def updateModel (w : UpdateWorld) : Except String (List Nat) :=
  match w.marshalResult with
  | .error e => .error ("Error marshaling payload: " ++ e)
  | .ok _ =>
      match w.newRequestResult with
      | .error e => .error ("Error creating request: " ++ e)
      | .ok _ =>
          match w.doResult with
          | .error e => .error ("Error sending request: " ++ e)
          | .ok _ => readLoop w.reads

/-! ### The checkbox UI (`handleCheckboxChange`) -/

/-- The state of one tview checkbox that the handler touches: its label,
checked flag and disabled flag. -/
structure CB where
  label : String
  checked : Bool
  disabled : Bool
deriving DecidableEq

/-- `handleCheckboxChange` from src/main.go (identical in
src/unnamed/part_000): on the "All" item, force every checkbox to
`checked` and disable them all exactly when `checked`; on any other item,
recompute `allChecked` (the source sets it to `false` as soon as any
checkbox `IsChecked()`), then set checkbox 0 accordingly.  The handler is
only ever attached to elements of a nonempty list, so index 0 exists at
every call site. -/
def handleCheckboxChange (checkboxes : List CB) (_index : Nat) (checked : Bool)
    (itemText : String) : List CB :=
  if itemText = "All" then
    checkboxes.map fun cb => { cb with checked := checked, disabled := checked }
  else
    let allChecked := checkboxes.all fun cb => !cb.checked
    checkboxes.modify (fun cb => { cb with checked := allChecked, disabled := allChecked }) 0

/-- A user toggle of the checkbox at `i`: tview first updates the widget's
own checked state, then invokes the changed handler with the widget's
label. -/
def toggleAt (checkboxes : List CB) (i : Nat) (v : Bool) : List CB :=
  let cbs := checkboxes.modify (fun cb => { cb with checked := v }) i
  handleCheckboxChange cbs i v ((cbs.getD i ⟨"", false, false⟩).label)

/-- The staleness predicate of one run item, as applied inside the main
loop: a successfully fetched item is reported exactly when its computed
remote hash differs from its local digest; an item whose fetch failed is
never reported. -/
def stalePred (p : RunItem) : Bool :=
  match p.2 with
  | some info => isStale info p.1.digest
  | none => false

/-- A concrete two-model run: the first model's fetch succeeds (with an
empty descriptor), the second model's fetch fails. -/
def witnessRun : List RunItem :=
  [(⟨"a:1", "X"⟩, some []), (⟨"b:1", "Y"⟩, none)]

/-- A concrete checkbox list: the "All" pseudo-item at index 0 followed by
two individual items, all unchecked and enabled. -/
def allStart : List CB :=
  [⟨"All", false, false⟩, ⟨"A", false, false⟩, ⟨"B", false, false⟩]

/-! ## Basic lemmas -/

theorem lexLe_total : ∀ x y : List Char, lexLe x y = true ∨ lexLe y x = true
  | [], _ => Or.inl rfl
  | _ :: _, [] => Or.inr rfl
  | a :: as, b :: bs => by
      by_cases hab : a < b
      · left
        simp [lexLe, hab]
      · by_cases hba : b < a
        · right
          simp [lexLe, hba]
        · have heq : a = b := le_antisymm (not_lt.mp hba) (not_lt.mp hab)
          subst heq
          rcases lexLe_total as bs with h | h
          · left
            simp [lexLe, lt_irrefl, h]
          · right
            simp [lexLe, lt_irrefl, h]

theorem lexLe_trans : ∀ x y z : List Char,
    lexLe x y = true → lexLe y z = true → lexLe x z = true
  | [], _, _, _, _ => rfl
  | _ :: _, [], _, h, _ => by simp [lexLe] at h
  | _ :: _, _ :: _, [], _, h => by simp [lexLe] at h
  | a :: as, b :: bs, c :: cs, h1, h2 => by
      by_cases hab : a < b
      · by_cases hbc : b < c
        · simp [lexLe, lt_trans hab hbc]
        · by_cases hcb : c < b
          · simp [lexLe, hbc, hcb] at h2
          · have heq : b = c := le_antisymm (not_lt.mp hcb) (not_lt.mp hbc)
            subst heq
            simp [lexLe, hab]
      · by_cases hba : b < a
        · simp [lexLe, hab, hba] at h1
        · have heq : a = b := le_antisymm (not_lt.mp hba) (not_lt.mp hab)
          subst heq
          simp only [lexLe, lt_irrefl, if_false] at h1
          by_cases hac : a < c
          · simp [lexLe, hac]
          · by_cases hca : c < a
            · simp [lexLe, hac, hca] at h2
            · have heq2 : a = c := le_antisymm (not_lt.mp hca) (not_lt.mp hac)
              subst heq2
              simp only [lexLe, lt_irrefl, if_false] at h2 ⊢
              exact lexLe_trans as bs cs h1 h2

theorem lexLe_antisymm : ∀ x y : List Char,
    lexLe x y = true → lexLe y x = true → x = y
  | [], [], _, _ => rfl
  | [], _ :: _, _, h => by simp [lexLe] at h
  | _ :: _, [], h, _ => by simp [lexLe] at h
  | a :: as, b :: bs, h1, h2 => by
      by_cases hab : a < b
      · simp [lexLe, asymm hab, hab] at h2
      · by_cases hba : b < a
        · simp [lexLe, hab, hba] at h1
        · have heq : a = b := le_antisymm (not_lt.mp hba) (not_lt.mp hab)
          subst heq
          simp only [lexLe, lt_irrefl, if_false] at h1 h2
          rw [lexLe_antisymm as bs h1 h2]

theorem sha256_length (msg : List Nat) : (sha256 msg).length = 32 := by
  simp [sha256, wordBytes]

theorem splitSeg_head (sep : Char) (l : List Char) :
    ∃ ss, splitSeg sep l = l.takeWhile (fun c => c != sep) :: ss := by
  induction l with
  | nil => exact ⟨[], rfl⟩
  | cons c rest ih =>
    by_cases hc : c = sep
    · refine ⟨splitSeg sep rest, ?_⟩
      simp [splitSeg, hc, List.takeWhile_cons]
    · obtain ⟨ss, hss⟩ := ih
      refine ⟨ss, ?_⟩
      simp [splitSeg, hc, hss, List.takeWhile_cons]

theorem splitSeg_ne_nil (sep : Char) (l : List Char) : splitSeg sep l ≠ [] := by
  obtain ⟨ss, hss⟩ := splitSeg_head sep l
  simp [hss]

theorem splitSeg_no_sep (sep : Char) (l : List Char) (h : sep ∉ l) :
    splitSeg sep l = [l] := by
  induction l with
  | nil => rfl
  | cons c rest ih =>
    have hc : c ≠ sep := fun he => h (he ▸ List.mem_cons_self c rest)
    have hr : sep ∉ rest := fun hm => h (List.mem_cons_of_mem c hm)
    simp [splitSeg, hc, ih hr]

theorem splitSeg_append_cons (sep : Char) (pre rest : List Char) (h : sep ∉ pre) :
    splitSeg sep (pre ++ sep :: rest) = pre :: splitSeg sep rest := by
  induction pre with
  | nil => simp [splitSeg]
  | cons c pre ih =>
    have hc : c ≠ sep := fun he => h (he ▸ List.mem_cons_self c pre)
    have hp : sep ∉ pre := fun hm => h (List.mem_cons_of_mem c hm)
    simp only [List.cons_append, splitSeg, if_neg hc, List.append_eq, ih hp]

theorem splitSeg_length_of_mem (sep : Char) (l : List Char) (h : sep ∈ l) :
    2 ≤ (splitSeg sep l).length := by
  induction l with
  | nil => cases h
  | cons c rest ih =>
    by_cases hc : c = sep
    · have h1 : 1 ≤ (splitSeg sep rest).length :=
        List.length_pos.mpr (splitSeg_ne_nil sep rest)
      simp only [splitSeg, if_pos hc, List.length_cons]
      omega
    · have hm : sep ∈ rest := by
        cases h with
        | head => exact absurd rfl hc
        | tail _ h => exact h
      obtain ⟨ss, hss⟩ := splitSeg_head sep rest
      have h2 := ih hm
      rw [hss] at h2
      simp only [splitSeg, if_neg hc, hss]
      simpa using h2

theorem resolveParts_eq_none (name : List Char) (h : ':' ∉ name) :
    resolveParts name = none := by
  simp [resolveParts, splitSeg_no_sep ':' name h]

theorem resolveParts_isSome (name : List Char) (h : ':' ∈ name) :
    ∃ p, resolveParts name = some p := by
  obtain ⟨ss, hss⟩ := splitSeg_head ':' name
  have hlen := splitSeg_length_of_mem ':' name h
  rw [hss] at hlen
  cases ss with
  | nil => simp at hlen
  | cons s1 rest =>
    refine ⟨(qualifyRepo (name.takeWhile (fun c => c != ':')), s1), ?_⟩
    simp [resolveParts, hss]

/-- Sanity check of the hash pipeline: SHA-256 followed by standard base64
on the message `abc` yields the well-known digest
ba7816bf8f01cfea414140de5dae2223b00361a396177a9cb410ff61f20015ad. -/
theorem sha256_base64_testvector :
    base64Encode (sha256 (utf8Bytes "abc")) =
      "ungWv48Bz+pBQUDeXa4iI7ADYaOWF3qctBD/YfIAFa0=" := by
  decide

/-- Sanity check of the canonical serialization: keys sorted, Go-style
escaping, no whitespace — matching `json.Marshal` output byte for byte. -/
theorem render_testvector :
    Jval.render (.obj [("b", .num 1), ("a", .str "x<y")]) =
      "\x7b\"a\":\"x\\u003cy\",\"b\":1\x7d" := by
  decide

/-! ## Claim theorems: fingerprint comparator -/

/-- C1: the fingerprint comparator computes the fingerprint as the standard
base64 encoding of the SHA-256 hash (a 256-bit / 32-byte digest) of the
descriptor's canonically serialized bytes, and reports stale exactly when
that fingerprint differs byte-for-byte from the local digest string. -/
theorem comparator_base64_sha256 (info : List (String × Jval)) (localDigest : String) :
    calculateHash (Jval.obj info) =
      base64Encode (sha256 (utf8Bytes (Jval.render (Jval.obj info)))) ∧
    (sha256 (utf8Bytes (Jval.render (Jval.obj info)))).length = 32 ∧
    (isStale info localDigest = true ↔ calculateHash (Jval.obj info) ≠ localDigest) := by
  refine ⟨rfl, sha256_length _, ?_⟩
  simp [isStale]

/-! ## Claim theorems: remote identity resolver -/

/-- C3, counterexample: on the name `a:b:c` the resolver does not keep the
whole remainder `b:c` after the first colon as the tag; it takes only the
segment `b` between the first and second colon. -/
theorem resolver_multicolon_counterexample :
    resolve "a:b:c" = some ("library/a", "b") ∧
      resolve "a:b:c" ≠ some ("library/a", "b:c") := by
  constructor
  · rfl
  · decide

/-- C3, amended: the resolver splits the name on every colon; the
repository segment is the (qualified) substring before the first colon
and the tag is the segment between the first and the second colon — the
remainder up to the next colon, not the entire remainder. -/
theorem resolver_splits_on_every_colon (pre rest : List Char) (h : ':' ∉ pre) :
    resolveParts (pre ++ ':' :: rest) =
      some (qualifyRepo pre, rest.takeWhile (fun c => c != ':')) := by
  obtain ⟨ss, hss⟩ := splitSeg_head ':' rest
  simp [resolveParts, splitSeg_append_cons ':' pre rest h, hss]

theorem resolver_splits_on_every_colon_witness :
    ':' ∉ ("a".data : List Char) ∧
      resolveParts ("a".data ++ ':' :: "b:c".data) =
        some (qualifyRepo "a".data, ("b:c".data).takeWhile (fun c => c != ':')) :=
  ⟨by decide, resolver_splits_on_every_colon "a".data "b:c".data (by decide)⟩

/-- C4: the resolver qualifies un-namespaced repositories under
`library/`: for a name `repo:tag` the resolved repository is
`library/repo` when `repo` contains no `/` and `repo` unchanged
otherwise, with the tag taken unchanged. -/
theorem resolver_library_qualification (repo tag : List Char)
    (h1 : ':' ∉ repo) (h2 : ':' ∉ tag) :
    resolveParts (repo ++ ':' :: tag) =
      some ((if '/' ∈ repo then repo else "library/".data ++ repo), tag) := by
  rw [resolver_splits_on_every_colon repo tag h1]
  have : tag.takeWhile (fun c => c != ':') = tag := by
    apply List.takeWhile_eq_self_iff.mpr
    intro c hc
    simp only [bne_iff_ne, ne_eq]
    intro he
    exact h2 (he ▸ hc)
  rw [this]
  rfl

/-- C4 witness: the two concrete resolutions named by the claim,
`llama2:7b ↦ (library/llama2, 7b)` and
`myorg/llama2:7b ↦ (myorg/llama2, 7b)`, via the general theorem. -/
theorem resolver_library_qualification_witness :
    resolve "llama2:7b" = some ("library/llama2", "7b") ∧
      resolve "myorg/llama2:7b" = some ("myorg/llama2", "7b") := by
  have g1 := resolver_library_qualification "llama2".data "7b".data (by decide) (by decide)
  have g2 := resolver_library_qualification "myorg/llama2".data "7b".data (by decide) (by decide)
  rw [if_neg (by decide)] at g1
  rw [if_pos (by decide)] at g2
  constructor
  · show (resolveParts "llama2:7b".data).map _ = _
    rw [show "llama2:7b".data = "llama2".data ++ ':' :: "7b".data from rfl, g1]
    rfl
  · show (resolveParts "myorg/llama2:7b".data).map _ = _
    rw [show "myorg/llama2:7b".data = "myorg/llama2".data ++ ':' :: "7b".data from rfl, g2]
    rfl

/-- C7: a colon-free model name violates the resolution precondition — the
split yields a single segment, so the second segment (`[1]`) does not
exist and the embedded split operation goes out of bounds (modelled as
`resolveParts = none`); and under the precondition that every name in the
run contains a colon, that out-of-bounds branch is unreachable: the
driver returns a report for the whole run. -/
theorem resolver_malformed_name_out_of_bounds :
    (∀ name : List Char, ':' ∉ name →
        splitSeg ':' name = [name] ∧ resolveParts name = none) ∧
    (∀ items : List RunItem, (∀ p ∈ items, ':' ∈ p.1.name.data) →
        ∃ r, driver items = .ok r) := by
  constructor
  · intro name h
    exact ⟨splitSeg_no_sep ':' name h, resolveParts_eq_none name h⟩
  · intro items h
    induction items with
    | nil => exact ⟨[], rfl⟩
    | cons item rest ih =>
      obtain ⟨m, fetched⟩ := item
      obtain ⟨p, hp⟩ := resolveParts_isSome m.name.data (h _ (List.mem_cons_self _ _))
      obtain ⟨r, hr⟩ := ih fun q hq => h q (List.mem_cons_of_mem _ hq)
      cases fetched with
      | none =>
        exact ⟨r, by simp [driver, resolve, hp, hr]⟩
      | some info =>
        refine ⟨(if isStale info m.digest then [m.name] else []) ++ r, ?_⟩
        simp [driver, resolve, hp, hr]

/-- C7 witness: the colon-free name `nocolon` hits the out-of-bounds
branch, and a run whose single name `a:1` is well-formed produces a
report. -/
theorem resolver_malformed_name_out_of_bounds_witness :
    (splitSeg ':' "nocolon".data = ["nocolon".data] ∧
        resolveParts "nocolon".data = none) ∧
      ∃ r, driver [(⟨"a:1", "X"⟩, none)] = .ok r :=
  ⟨resolver_malformed_name_out_of_bounds.1 "nocolon".data (by decide),
   resolver_malformed_name_out_of_bounds.2 [(⟨"a:1", "X"⟩, none)] (by decide)⟩

/-! ## Claim theorems: reconciliation driver -/

theorem filter_eraseIdx_of_not {α : Type} (p : α → Bool) :
    ∀ (l : List α) (k : Nat) (hk : k < l.length), p (l.get ⟨k, hk⟩) = false →
      l.filter p = (l.eraseIdx k).filter p
  | [], k, hk, _ => by simp at hk
  | x :: xs, 0, _, h => by
      simp only [List.get] at h
      simp [List.filter_cons, h]
  | x :: xs, k + 1, hk, h => by
      simp only [List.eraseIdx_cons_succ, List.filter_cons]
      rw [filter_eraseIdx_of_not p xs k (by simpa using hk) (by simpa using h)]

theorem driver_ok (items : List RunItem) (h : ∀ p ∈ items, ':' ∈ p.1.name.data) :
    driver items = .ok ((items.filter stalePred).map fun p => p.1.name) := by
  induction items with
  | nil => rfl
  | cons item rest ih =>
    obtain ⟨m, fetched⟩ := item
    obtain ⟨q, hq⟩ := resolveParts_isSome m.name.data (h _ (List.mem_cons_self _ _))
    have hrest := ih fun p hp => h p (List.mem_cons_of_mem _ hp)
    cases fetched with
    | none => simp [driver, resolve, hq, hrest, stalePred, List.filter_cons]
    | some info =>
      by_cases hs : isStale info m.digest
      · simp [driver, resolve, hq, hrest, stalePred, List.filter_cons, hs]
      · simp [driver, resolve, hq, hrest, stalePred, List.filter_cons, hs]

/-- C2, counterexample: two models, the second fetch fails (404), the
first fetch and comparison succeed and find the model up to date — the
report has 0 entries, not N − 1 = 1: the driver reports only stale
models, not one record per successfully compared model. -/
theorem driver_report_size_counterexample :
    driver [(⟨"a:1", calculateHash (.obj [])⟩, some []), (⟨"b:1", "X"⟩, none)] =
        .ok [] ∧
      ([] : List String).length ≠ 2 - 1 :=
  ⟨rfl, by decide⟩

/-- C2, amended: with well-formed names, if the fetch of the k-th model
fails and every other fetch succeeds, the driver does not raise, no item
after k is skipped, and the report lists — in input order — exactly those
models among the N − 1 successfully fetched ones whose computed
fingerprint differs from their stored digest (so it has at most N − 1
entries, and exactly N − 1 only when every compared model is stale). -/
theorem driver_report_on_single_failure (items : List RunItem) (k : Nat)
    (hk : k < items.length)
    (hwf : ∀ p ∈ items, ':' ∈ p.1.name.data)
    (hfail : ∀ i : Fin items.length, ((items.get i).2 = none ↔ i.val = k)) :
    driver items = .ok (((items.eraseIdx k).filter stalePred).map fun p => p.1.name) := by
  rw [driver_ok items hwf]
  have hnone : (items.get ⟨k, hk⟩).2 = none := (hfail ⟨k, hk⟩).mpr rfl
  have hfalse : stalePred (items.get ⟨k, hk⟩) = false := by
    unfold stalePred
    rw [hnone]
  rw [filter_eraseIdx_of_not stalePred items k hk hfalse]

/-- C2 witness: the concrete two-model run `witnessRun` with the failure
at index 1 — the report is that of the remaining first model. -/
theorem driver_report_on_single_failure_witness :
    driver witnessRun =
      .ok (((witnessRun.eraseIdx 1).filter stalePred).map fun p => p.1.name) :=
  driver_report_on_single_failure witnessRun 1 (by decide) (by decide)
    (by intro i; fin_cases i <;> simp [witnessRun])

/-! ## Claim theorems: comparator determinism -/

theorem renderFields_eq_map (fs : List (String × Jval)) :
    Jval.renderFields fs =
      fs.map fun kv => (kv.1, quoteJson kv.1 ++ ":" ++ kv.2.render) := by
  induction fs with
  | nil => rfl
  | cons kv rest ih =>
    obtain ⟨k, v⟩ := kv
    simp [Jval.renderFields, ih]

/-- C5: the fingerprint comparator is deterministic on the descriptor as a
map — two field lists that are permutations of each other (with no
duplicate keys, as in a Go map) canonically serialize to the same bytes
and hash to the identical fingerprint string. -/
theorem comparator_deterministic (fs₁ fs₂ : List (String × Jval))
    (hperm : fs₁.Perm fs₂) (hnodup : (fs₁.map Prod.fst).Nodup) :
    calculateHash (Jval.obj fs₁) = calculateHash (Jval.obj fs₂) := by
  suffices h : List.insertionSort fieldLe (Jval.renderFields fs₁) =
      List.insertionSort fieldLe (Jval.renderFields fs₂) by
    simp [calculateHash, Jval.render, h]
  set s₁ := List.insertionSort fieldLe (Jval.renderFields fs₁) with hs₁
  set s₂ := List.insertionSort fieldLe (Jval.renderFields fs₂) with hs₂
  have hpm : (Jval.renderFields fs₁).Perm (Jval.renderFields fs₂) := by
    rw [renderFields_eq_map, renderFields_eq_map]
    exact hperm.map _
  have hp : s₁.Perm s₂ :=
    ((List.perm_insertionSort fieldLe _).trans hpm).trans
      (List.perm_insertionSort fieldLe _).symm
  have hkeys : ∀ fs : List (String × Jval),
      (Jval.renderFields fs).map Prod.fst = fs.map Prod.fst := by
    intro fs
    rw [renderFields_eq_map, List.map_map]
    rfl
  have hnd₁ : (s₁.map Prod.fst).Nodup := by
    have : ((Jval.renderFields fs₁).map Prod.fst).Nodup := by
      rw [hkeys]; exact hnodup
    exact (((List.perm_insertionSort fieldLe _).map Prod.fst).nodup_iff).mpr this
  have hnd₂ : (s₂.map Prod.fst).Nodup := ((hp.map Prod.fst).nodup_iff).mp hnd₁
  haveI : IsTotal (String × String) fieldLe := ⟨fun a b => lexLe_total a.1.data b.1.data⟩
  haveI : IsTrans (String × String) fieldLe :=
    ⟨fun a b c => lexLe_trans a.1.data b.1.data c.1.data⟩
  have hlt : ∀ s : List (String × String), (s.map Prod.fst).Nodup →
      List.Sorted fieldLe s →
      List.Pairwise (fun a b : String × String => fieldLe a b ∧ a.1 ≠ b.1) s := by
    intro s hnd hsorted
    have hne : List.Pairwise (fun a b : String × String => a.1 ≠ b.1) s :=
      List.pairwise_map.mp hnd
    exact hsorted.and hne
  haveI : IsAntisymm (String × String)
      (fun a b : String × String => fieldLe a b ∧ a.1 ≠ b.1) :=
    ⟨fun a b h1 h2 => by
      have hdata : a.1.data = b.1.data := lexLe_antisymm _ _ h1.1 h2.1
      exact absurd (String.ext hdata) h1.2⟩
  exact List.eq_of_perm_of_sorted hp
    (hlt s₁ hnd₁ (List.sorted_insertionSort fieldLe _))
    (hlt s₂ hnd₂ (List.sorted_insertionSort fieldLe _))

/-- C5 witness: a concrete two-field descriptor in its two insertion
orders yields the identical fingerprint. -/
theorem comparator_deterministic_witness :
    ([("b", Jval.num 1), ("a", Jval.num 2)] : List (String × Jval)).Perm
        [("a", Jval.num 2), ("b", Jval.num 1)] ∧
      (([("b", Jval.num 1), ("a", Jval.num 2)] :
          List (String × Jval)).map Prod.fst).Nodup ∧
      calculateHash (Jval.obj [("b", Jval.num 1), ("a", Jval.num 2)]) =
        calculateHash (Jval.obj [("a", Jval.num 2), ("b", Jval.num 1)]) :=
  ⟨List.Perm.swap ("a", Jval.num 2) ("b", Jval.num 1) [],
   by decide,
   comparator_deterministic _ _ (List.Perm.swap ("a", Jval.num 2) ("b", Jval.num 1) [])
     (by decide)⟩

/-! ## Claim theorems: checkbox UI -/

/-- C6: the code contradicts the claimed "All"-re-derivation invariant.
Starting from all items unchecked and checking the individual items one
by one (`A`, then `B`), every individual item ends checked, yet the "All"
checkbox at index 0 stays unchecked and enabled — the handler computes
`allChecked` as "no checkbox is checked" (the loop clears it as soon as
any `IsChecked()`), the inverse of the intended "every item is checked". -/
theorem allCheckbox_rederive_failing_input :
    (∀ cb ∈ (toggleAt (toggleAt allStart 1 true) 2 true).drop 1, cb.checked = true) ∧
      (toggleAt (toggleAt allStart 1 true) 2 true).getD 0 ⟨"", false, false⟩ =
        ⟨"All", false, false⟩ := by
  decide

/-- C10: when the change handler runs for an individual item (label not
"All"), every checkbox other than index 0 is left completely unchanged,
and the label of the checkbox at index 0 is also unchanged — only the
checked/disabled state of index 0 may change. -/
theorem handler_individual_frame (cbs : List CB) (index : Nat) (checked : Bool)
    (itemText : String) (h : itemText ≠ "All") (i : Nat) (hi : i ≠ 0) :
    (handleCheckboxChange cbs index checked itemText)[i]? = cbs[i]? ∧
      ((handleCheckboxChange cbs index checked itemText)[0]?).map CB.label =
        (cbs[0]?).map CB.label := by
  unfold handleCheckboxChange
  rw [if_neg h]
  constructor
  · rw [List.getElem?_modify]
    cases hcell : cbs[i]? with
    | none => rfl
    | some cb => simp [Ne.symm hi]
  · rw [List.getElem?_modify]
    cases hcell : cbs[0]? with
    | none => rfl
    | some cb => simp

/-- C10 witness: toggling the individual item `A` in the concrete list
leaves the checkbox at index 1 unchanged and preserves the label at
index 0. -/
theorem handler_individual_frame_witness :
    (handleCheckboxChange allStart 1 true "A")[1]? = allStart[1]? ∧
      ((handleCheckboxChange allStart 1 true "A")[0]?).map CB.label =
        (allStart[0]?).map CB.label :=
  handler_individual_frame allStart 1 true "A" (by decide) 1 (by decide)

/-! ## Claim theorems: update trigger -/

/-- C8: in `updateModel`, a failing marshal, request creation, or request
execution takes a fatal branch (`log.Fatalf`, i.e. process termination,
modelled as `Except.error`) instead of returning an error value; when all
three succeed, none of those fatal branches is taken and the call
proceeds to the streaming read loop. -/
theorem updateTrigger_fatal_on_failure (w : UpdateWorld) :
    ((w.marshalResult.isOk = false ∨ w.newRequestResult.isOk = false ∨
        w.doResult.isOk = false) → ∃ msg, updateModel w = .error msg) ∧
    (w.marshalResult.isOk = true → w.newRequestResult.isOk = true →
      w.doResult.isOk = true → updateModel w = readLoop w.reads) := by
  obtain ⟨mr, nr, dr, reads⟩ := w
  cases mr <;> cases nr <;> cases dr <;>
    simp [updateModel, Except.isOk, Except.toBool]

/-- C8 witness: a failing marshal is fatal; with all three steps
succeeding, the call reduces to the read loop. -/
theorem updateTrigger_fatal_on_failure_witness :
    (∃ msg, updateModel ⟨.error "boom", .ok (), .ok (), []⟩ = .error msg) ∧
      updateModel ⟨.ok [123], .ok (), .ok (), [([104, 105], ReadErr.eof)]⟩ =
        readLoop [([104, 105], ReadErr.eof)] :=
  ⟨(updateTrigger_fatal_on_failure ⟨.error "boom", .ok (), .ok (), []⟩).1
      (Or.inl rfl),
   (updateTrigger_fatal_on_failure
      ⟨.ok [123], .ok (), .ok (), [([104, 105], ReadErr.eof)]⟩).2 rfl rfl rfl⟩

/-- C9: the streaming read loop is total and, on every finite stream of
non-empty chunks (each at most the 1024-byte buffer) with no read error,
forwards exactly the received bytes in order; a zero-byte read stops the
loop at once. -/
theorem updateTrigger_stream_forwarding :
    (∀ rs : List (List Nat × ReadErr),
        (∀ c ∈ rs, c.1 ≠ [] ∧ c.1.length ≤ 1024 ∧ c.2 ≠ ReadErr.other) →
        readLoop rs = .ok (rs.map Prod.fst).flatten) ∧
    (∀ (e : ReadErr) (rest : List (List Nat × ReadErr)), e ≠ ReadErr.other →
        readLoop (([], e) :: rest) = .ok []) := by
  constructor
  · intro rs h
    induction rs with
    | nil => rfl
    | cons c rest ih =>
      obtain ⟨chunk, e⟩ := c
      obtain ⟨h1, _, h3⟩ := h _ (List.mem_cons_self _ _)
      have hr := ih fun q hq => h q (List.mem_cons_of_mem _ hq)
      have hlen : chunk.length ≠ 0 := fun hz => h1 (List.length_eq_zero.mp hz)
      simp [readLoop, h3, hlen, hr]
  · intro e rest he
    simp [readLoop, he]

/-- C9 witness: a two-chunk stream is forwarded verbatim, and a stream
beginning with a zero-byte read yields no output. -/
theorem updateTrigger_stream_forwarding_witness :
    readLoop [([1, 2], ReadErr.none), ([3], ReadErr.eof)] = .ok [1, 2, 3] ∧
      readLoop [([], ReadErr.eof), ([9], ReadErr.none)] = .ok [] := by
  constructor
  · have := updateTrigger_stream_forwarding.1
      [([1, 2], ReadErr.none), ([3], ReadErr.eof)] (by decide)
    simpa using this
  · exact updateTrigger_stream_forwarding.2 ReadErr.eof [([9], ReadErr.none)] (by decide)

end OllamaUpdater
